import Mathlib

/-
Verification development for the prism DAG executor.

Shallow embedding of:
  src/prism/infra/executor.py  (class DagExecutor: check_task_refs, exec_single, exec)
  src/prism/infra/module.py    (CompiledModule._check_manifest)

Conventions of the embedding:
  - Python values that can be a str, a list, or anything else are embedded by the
    inductive RefsVal; Python dynamic equality between a pathlib.Path and a str
    (always False) is embedded by the inductive PyObj and pyObjEq.
  - The external task execution contract (BaseEventManager.manage_events_during_run
    running model.exec, from prism/event_managers/base.py, which is not part of the
    sources under inspection) is abstracted by the field beh of CompiledModel:
    beh k tells whether attempt number k (1-based) of the task succeeds. On a failed
    attempt the event manager returns outputs equal to 0 together with an error
    event; on success it returns the task manager. Everything else is translated
    from the source.
  - Machine integers do not overflow in any quantity appearing here (loop counters,
    list lengths), so Nat is used directly.
  - The pooled executor (threads greater than 1) is embedded as a labelled
    transition system further below; one loop iteration of the submission loop,
    and one completion callback, are the atomic steps.  This matches the ordering
    guarantees of multiprocessing.pool: the completion callback runs before the
    corresponding AsyncResult.wait returns.
-/

namespace Prism

/-- Console events, abstracted: a retry delay notice, a task execution record,
and an error event carried to the caller. -/
inductive Event where
  | delayEvt (name : String) (seconds : Nat)
  | execEvt (name : String) (ok : Bool)
  | errorEvt (name : String)
deriving DecidableEq, Repr

/-- Python exceptions that the embedded code can raise: AttributeError from
setting an attribute on an int, and prism.exceptions.CompileException. -/
inductive PyErr where
  | attributeError
  | compileException
deriving DecidableEq, Repr

/-- Data carried by prism.infra.task_manager.PrismTaskManager (a mutable record
holding the name of the module being run and the outputs of upstream tasks). -/
structure PrismTaskManager where
  curr_module : String
  upstream : List String
deriving DecidableEq, Repr

/-- The Python value stored in DagExecutor.task_manager and returned as the
outputs field of an EventManagerOutput: either the int 0 (failure) or a
PrismTaskManager (success). -/
inductive TMOut where
  | fail
  | tmv (t : PrismTaskManager)
deriving DecidableEq, Repr

/-- Value of the Union[int, PrismTaskManager] argument of exec_single. -/
inductive TMArg where
  | intVal (n : Nat)
  | tmv (t : PrismTaskManager)
deriving DecidableEq, Repr

/-- Output of BaseEventManager.manage_events_during_run and of exec_single. -/
structure EventManagerOutput where
  outputs : TMOut
  event_to_fire : Option Event
  event_list : List Event
deriving DecidableEq, Repr

/-- Output of DagExecutor.exec (executor.py, dataclass ExecutorOutput). -/
structure ExecutorOutput where
  success : Nat
  error_event : Option Event
  event_list : List Event
deriving DecidableEq, Repr

/-- Shape of the Python value stored in CompiledModel.refs: a str, a list of
str, or any other Python value (vother). -/
inductive RefsVal where
  | vstr (s : String)
  | vlist (l : List String)
  | vother
deriving DecidableEq, Repr

/-- One entry of module_manifest.manifest_dict of key refs (a dict with a
source field), as read by CompiledModule._check_manifest. -/
structure RefObj where
  source : String
deriving DecidableEq, Repr

/-- A compiled model (task descriptor) as consumed by DagExecutor: relative
path, task variable name, declared refs, retry metadata, and the abstracted
external task behaviour beh (whether attempt k succeeds). -/
structure CompiledModel where
  model_relative_path : String
  task_var_name : String
  refs : RefsVal
  retries : Nat
  retry_delay_seconds : Nat
  beh : Nat → Bool

/-- Translation of CompiledModule._check_manifest (module.py lines 74-85):
collect the source field of every manifest ref; when exactly one ref was
declared, the bare string is stored instead of the singleton list. -/
def check_manifest (manifest_refs : List RefObj) : RefsVal :=
  let refs := manifest_refs.map RefObj.source
  if refs.length = 1 then RefsVal.vstr refs.headI else RefsVal.vlist refs

/-- Translation of DagExecutor.check_task_refs (executor.py lines 95-111):
a str is wrapped into a one element list, a list is returned unchanged, and
any other shape raises a CompileException. -/
def check_task_refs : RefsVal → Except PyErr (List String)
  | RefsVal.vstr s => Except.ok [s]
  | RefsVal.vlist l => Except.ok l
  | RefsVal.vother => Except.error PyErr.compileException

/-- Whether a RefsVal is a Python list. -/
def isVlist : RefsVal → Bool
  | RefsVal.vlist _ => true
  | _ => false

/-- Python object used by the membership test at executor.py line 208: the
executor compares a pathlib.Path (model.model_relative_path) against the
strings stored in nodes_not_explicitly_run. -/
inductive PyObj where
  | pstr (s : String)
  | ppath (s : String)
deriving DecidableEq, Repr

/-- Python equality between the embedded objects: str equals str and Path
equals Path by content; a Path never equals a str (both rich comparisons
return NotImplemented, so Python falls back to identity, which is False). -/
def pyObjEq : PyObj → PyObj → Bool
  | PyObj.pstr a, PyObj.pstr b => a == b
  | PyObj.ppath a, PyObj.ppath b => a == b
  | _, _ => false

/-- Python membership x in l (list.__contains__): some element equals x. -/
def pyIn (x : PyObj) (l : List PyObj) : Bool :=
  l.any (fun e => pyObjEq e x)

/-- Translation of DagExecutor.__init__ lines 75-81: when neither expansion
flag is set, the nodes not explicitly run are the topologically sorted model
names minus the user selected model names.  Python builds this with a set
difference; only membership in the result is ever consumed, so the embedding
keeps list order and drops the deduplication. -/
def nodes_not_explicitly_run (topo user : List String) (up down : Bool) : List String :=
  if !up && !down then topo.filter (fun n => !(user.contains n)) else []

/-- Translation of the explicit_run argument at executor.py line 208:
relative_path not in self.nodes_not_explicitly_run, where relative_path is a
pathlib.Path and the list holds task name strings. -/
def explicit_run_arg (m : CompiledModel) (nodes : List String) : Bool :=
  !(pyIn (PyObj.ppath m.model_relative_path) (nodes.map PyObj.pstr))

/-- Final path component, as pathlib.Path.name. -/
def path_name (s : String) : String :=
  (s.splitOn "/").getLastD s

/-- Translation of re.sub applied at executor.py line 124: strip a trailing
.py from the module file name. -/
def strip_py (s : String) : String :=
  if s.endsWith ".py" then s.dropRight 3 else s

/-- State of the retry loop of exec_single (executor.py lines 170-220):
number of attempts made, the sleeps performed, whether the last attempt
succeeded, and the accumulated events. -/
structure LoopResult where
  num_runs : Nat
  sleeps : List Nat
  succeeded : Bool
  events : List Event
deriving DecidableEq, Repr

/-- Translation of the while loop of exec_single (lines 180-216).  The Python
loop runs while num_runs differs from num_expected_runs and outputs equals 0;
here the remaining iteration budget num_expected_runs - num_runs is the fuel
argument.  Before every attempt after the first, a DelayEvent is fired with
the current name, the loop sleeps retry_delay_seconds, and the name receives
a RETRY tag; then the attempt runs and its events and outputs are recorded. -/
def attemptGo (beh : Nat → Bool) (delay : Nat) (num_runs : Nat) (name : String)
    (events : List Event) (sleeps : List Nat) : Nat → LoopResult
  | 0 => ⟨num_runs, sleeps, false, events⟩
  | fuel + 1 =>
    let n := num_runs + 1
    let name1 := if n > 1 then name ++ " (RETRY " ++ toString (n - 1) ++ ")" else name
    let events1 := if n > 1 then events ++ [Event.delayEvt name delay] else events
    let sleeps1 := if n > 1 then sleeps ++ [delay] else sleeps
    let ok := beh n
    let events2 := events1 ++ [Event.execEvt name1 ok]
    if ok then ⟨n, sleeps1, true, events2⟩
    else attemptGo beh delay n name1 events2 sleeps1 fuel

/-- The retry loop of exec_single for a model: num_expected_runs is
retries + 1 (model.grab_retries_metadata, whose defaults per the manifest
metadata are retryCount 0 and retryDelaySeconds 0). -/
def attemptLoop (m : CompiledModel) : LoopResult :=
  attemptGo m.beh m.retry_delay_seconds 0 m.task_var_name [] [] (m.retries + 1)

/-- Core of exec_single after the task manager guard: set curr_module from
the model file name, run the attempt loop, and package the result as the
event manager output that exec_single returns (outputs is the task manager
on success and 0 on failure, event_to_fire carries the error event of the
final failed attempt, event_list is all accumulated events). -/
def execSingleCore (m : CompiledModel) (t : PrismTaskManager) : EventManagerOutput :=
  let t1 : PrismTaskManager := { t with curr_module := strip_py (path_name m.model_relative_path) }
  let L := attemptLoop m
  { outputs := if L.succeeded then TMOut.tmv { t1 with upstream := t1.upstream ++ [m.task_var_name] } else TMOut.fail
    event_to_fire := if L.succeeded then none else some (Event.errorEvt m.task_var_name)
    event_list := L.events }

/-- The EventManagerOutput(0, None, event_list) constructed, and discarded,
under the task_manager == 0 guard of exec_single (executor.py line 130);
event_list is empty at that point. -/
def guarded_output : EventManagerOutput :=
  ⟨TMOut.fail, none, []⟩

/-- Python test task_manager == 0 on the Union typed argument. -/
def tm_arg_eq_zero : TMArg → Bool
  | TMArg.intVal n => n == 0
  | TMArg.tmv _ => false

/-- Translation of DagExecutor.exec_single (executor.py lines 113-220).
The first statement sets task_manager.curr_module; on an int this raises
AttributeError.  The subsequent task_manager == 0 guard constructs an
EventManagerOutput but has no return statement, so control always proceeds
to the attempt loop. -/
def execSingle (m : CompiledModel) (task_manager : TMArg) : Except PyErr EventManagerOutput :=
  match task_manager with
  | TMArg.intVal _ => Except.error PyErr.attributeError
  | TMArg.tmv t =>
    let _ := if tm_arg_eq_zero (TMArg.tmv t) then some guarded_output else none
    Except.ok (execSingleCore m t)

/-- Python test outputs == 0 (resp. self.task_manager == 0). -/
def isFail : TMOut → Bool
  | TMOut.fail => true
  | TMOut.tmv _ => false

/-- Executor state mutated by the callback closure of DagExecutor.exec:
self.task_manager, self._wait_and_return, self.error_event, self.event_list. -/
structure SeqState where
  task_manager : TMOut
  wait_and_return : Bool
  error_event : Option Event
  event_list : List Event
deriving DecidableEq, Repr

/-- Translation of the callback closure (executor.py lines 247-259): on a
result with outputs == 0 set the flag and record the error event; always
rebind self.task_manager to the outputs and append the runner events. -/
def callbackFn (result : EventManagerOutput) (s : SeqState) : SeqState :=
  { task_manager := result.outputs
    wait_and_return := if isFail result.outputs then true else s.wait_and_return
    error_event := if isFail result.outputs then result.event_to_fire else s.error_event
    event_list := s.event_list ++ result.event_list }

/-- The stored task manager as it is passed back into exec_single. -/
def to_tm_arg : TMOut → TMArg
  | TMOut.fail => TMArg.intVal 0
  | TMOut.tmv t => TMArg.tmv t

/-- Translation of the sequential branch of DagExecutor.exec (executor.py
lines 267-284): pop the first compiled model, run exec_single to completion,
apply the callback, and return ExecutorOutput(0, ...) as soon as
self.task_manager == 0; when the list is exhausted return success 1. -/
def execSeqGo : List CompiledModel → SeqState → Except PyErr ExecutorOutput
  | [], s => Except.ok ⟨1, s.error_event, s.event_list⟩
  | curr :: rest, s =>
    match execSingle curr (to_tm_arg s.task_manager) with
    | Except.error e => Except.error e
    | Except.ok result =>
      let s1 := callbackFn result s
      if isFail s1.task_manager then Except.ok ⟨0, s1.error_event, s1.event_list⟩
      else execSeqGo rest s1

/-- Sequential DAG execution: exec with threads == 1, starting from the task
manager stored in the run context. -/
def execSeq (models : List CompiledModel) (t0 : PrismTaskManager) : Except PyErr ExecutorOutput :=
  execSeqGo models ⟨TMOut.tmv t0, false, none, []⟩

/-
Pooled mode (threads greater than 1, executor.py lines 288-344), embedded as a
labelled transition system.  The state carries the remaining queue
(self.compiled_models), the submitted but not yet completed models (the pool),
the completed models with their outcome in callback delivery order
(async_results whose result is set), and the executor attributes written by
the callback.  The two transitions are: one iteration of the submission loop
that submits the head of the queue (guard canSubmit: the flag check at line
298, the wait on every ref at line 317 and the second flag check at line 320),
and the completion of an in-flight task, which atomically records the result
and runs the callback — in multiprocessing.pool the callback runs before the
AsyncResult is marked ready, so a wait on a failed ref returns only after the
failure flag is already set.
-/

/-- State of the pooled executor. -/
structure PoolState where
  queue : List CompiledModel
  inflight : List CompiledModel
  done : List (CompiledModel × Bool)
  wait_and_return : Bool
  error_event : Option Event
  event_list : List Event

/-- Whether the async result of ref name r has been set (AsyncResult.wait
would return immediately). -/
def refDoneB (done : List (CompiledModel × Bool)) (r : String) : Bool :=
  done.any (fun p => p.1.task_var_name == r)

/-- Guard of one submission loop iteration for the model at the head of the
queue: the failure flag is unset, check_task_refs succeeds, and every ref has
completed (the loop blocks on async_results[ref].wait() until then; the flag
is checked again after the waits, which the single flag conjunct covers
because the completion callbacks run before the waits return).  When
check_task_refs raises, the iteration raises instead of submitting. -/
def canSubmit (m : CompiledModel) (s : PoolState) : Bool :=
  !s.wait_and_return &&
    (match check_task_refs m.refs with
     | Except.ok refs => refs.all (fun r => refDoneB s.done r)
     | Except.error _ => false)

/-- Result of exec_single as delivered to the pool callback.  The outputs and
the events of execSingleCore do not depend on which task manager object was
bound at submission time, so the initial one is used throughout. -/
def emOut (t0 : PrismTaskManager) (m : CompiledModel) : EventManagerOutput :=
  execSingleCore m t0

/-- Completion of model m: the async result is set and the callback closure
(executor.py lines 247-259) runs on the executor state. -/
def applyCallback (result : EventManagerOutput) (m : CompiledModel) (s : PoolState) : PoolState :=
  { s with
    done := s.done ++ [(m, !isFail result.outputs)]
    wait_and_return := if isFail result.outputs then true else s.wait_and_return
    error_event := if isFail result.outputs then result.event_to_fire else s.error_event
    event_list := s.event_list ++ result.event_list }

/-- Transitions of the pooled executor. -/
inductive PoolStep (t0 : PrismTaskManager) : PoolState → PoolState → Prop
  | submit (s : PoolState) (m : CompiledModel) (rest : List CompiledModel)
      (hq : s.queue = m :: rest) (hc : canSubmit m s = true) :
      PoolStep t0 s { s with queue := rest, inflight := s.inflight ++ [m] }
  | complete (s : PoolState) (l1 l2 : List CompiledModel) (m : CompiledModel)
      (hin : s.inflight = l1 ++ m :: l2) :
      PoolStep t0 s (applyCallback (emOut t0 m) m { s with inflight := l1 ++ l2 })

/-- Initial pooled state: the full compiled model list queued, nothing
submitted, flag unset (executor.py lines 262-265). -/
def initPool (models : List CompiledModel) : PoolState :=
  ⟨models, [], [], false, none, []⟩

/-- Reachable states of a pooled run. -/
inductive Reach (t0 : PrismTaskManager) (models : List CompiledModel) : PoolState → Prop
  | init : Reach t0 models (initPool models)
  | step (s s' : PoolState) (h : Reach t0 models s) (hstep : PoolStep t0 s s') :
      Reach t0 models s'

/-- The pooled run can return: the submission loop has ended (queue empty, or
the flag stopped it) and pool.close() followed by pool.join() has seen every
submitted task finish. -/
def canReturn (s : PoolState) : Prop :=
  s.inflight = [] ∧ (s.queue = [] ∨ s.wait_and_return = true)

/-- ExecutorOutput returned by the pooled branch (executor.py lines 333-344):
success 0 with the recorded error event when the flag was set, else 1. -/
def poolOutput (s : PoolState) : ExecutorOutput :=
  if s.wait_and_return then ⟨0, s.error_event, s.event_list⟩
  else ⟨1, s.error_event, s.event_list⟩

/-- Every ref of m has completed successfully in state s. -/
def refsAllOk (m : CompiledModel) (s : PoolState) : Bool :=
  match check_task_refs m.refs with
  | Except.ok refs => refs.all (fun r => s.done.any (fun p => p.1.task_var_name == r && p.2))
  | Except.error _ => false

/-- First failing completion, in callback delivery order, as an error event. -/
def firstFailureErr (done : List (CompiledModel × Bool)) : Option Event :=
  ((done.filter (fun p => !p.2)).head?).map (fun p => Event.errorEvt p.1.task_var_name)

/-- Last failing completion, in callback delivery order, as an error event. -/
def lastFailureErr (done : List (CompiledModel × Bool)) : Option Event :=
  ((done.filter (fun p => !p.2)).getLast?).map (fun p => Event.errorEvt p.1.task_var_name)

/-- Concatenated per-task event lists of the completed tasks, in callback
delivery order. -/
def doneEvents (t0 : PrismTaskManager) : List (CompiledModel × Bool) → List Event
  | [] => []
  | p :: rest => (emOut t0 p.1).event_list ++ doneEvents t0 rest

/-
Progress accounting of exec_single (executor.py lines 141-161).
-/

/-- Ordering used by Python sorted on the (index, name) tuples built from
zip(models_idx, self.user_arg_models): lexicographic tuple comparison. -/
def pairRel (p q : Nat × String) : Prop :=
  p.1 < q.1 ∨ (p.1 = q.1 ∧ p.2 ≤ q.2)

instance : DecidableRel pairRel := fun p q => by
  unfold pairRel; infer_instance

instance : IsTotal (Nat × String) pairRel where
  total p q := by
    rcases Nat.lt_trichotomy p.1 q.1 with h | h | h
    · exact Or.inl (Or.inl h)
    · rcases le_total p.2 q.2 with h2 | h2
      · exact Or.inl (Or.inr ⟨h, h2⟩)
      · exact Or.inr (Or.inr ⟨h.symm, h2⟩)
    · exact Or.inr (Or.inl h)

instance : IsTrans (Nat × String) pairRel where
  trans p q r hpq hqr := by
    rcases hpq with h1 | ⟨h1, h1s⟩
    · rcases hqr with h2 | ⟨h2, _⟩
      · exact Or.inl (h1.trans h2)
      · exact Or.inl (h2 ▸ h1)
    · rcases hqr with h2 | ⟨h2, h2s⟩
      · exact Or.inl (h1 ▸ h2)
      · exact Or.inr ⟨h1.trans h2, h1s.trans h2s⟩

/-- Translation of the idx and total computation of exec_single (executor.py
lines 141-161).  models_idx collects topological positions of user named
models via list.index (embedded by indexOf; list.index raises on a missing
element, which the membership hypotheses of the theorems below exclude);
models_sorted is sorted(zip(models_idx, user)) projected to names.  Python
sorted is a stable sort; on the tuples arising here any two sorted
permutations agree, so insertionSort is a faithful embedding. -/
def compute_idx_total (topo user : List String) (up down : Bool)
    (model_name : String) : Option Nat × Option Nat :=
  let models_idx := user.map (fun mm => topo.indexOf mm)
  let models_sorted := (List.insertionSort pairRel (models_idx.zip user)).map Prod.snd
  if up || down then (some (topo.indexOf model_name + 1), some topo.length)
  else if model_name ∈ user then
    (some (models_sorted.indexOf model_name + 1), some models_sorted.length)
  else (none, none)

/-
Specification-side vocabulary used to state the theorems.
-/

/-- First attempt number in 1..fuel+n that succeeds, counting from attempt
n + 1: the attempt at which the retry loop stops early. -/
def firstSucc (beh : Nat → Bool) : Nat → Nat → Option Nat
  | _, 0 => none
  | n, fuel + 1 => if beh (n + 1) then some (n + 1) else firstSucc beh (n + 1) fuel

/-- Whether the task finally succeeds after all its retries. -/
def finalOk (m : CompiledModel) : Bool :=
  (attemptLoop m).succeeded

/-- All events produced by running one task to completion. -/
def singleEvents (m : CompiledModel) : List Event :=
  (attemptLoop m).events

/-- The models a sequential run actually executes: every model up to and
including the first one whose final result is a failure. -/
def seqExecuted : List CompiledModel → List CompiledModel
  | [] => []
  | m :: rest => if finalOk m then m :: seqExecuted rest else [m]

/-- Error event of the first model whose final result is a failure. -/
def firstErr (models : List CompiledModel) : Option Event :=
  (models.find? (fun m => !finalOk m)).map (fun m => Event.errorEvt m.task_var_name)

/-- Concatenated event lists of a list of models, in order. -/
def allEvents : List CompiledModel → List Event
  | [] => []
  | m :: rest => singleEvents m ++ allEvents rest

/-- Whether an event is a retry delay notice. -/
def isDelayEvt : Event → Bool
  | Event.delayEvt _ _ => true
  | _ => false

/-
Lemmas about the retry loop.
-/

lemma firstSucc_lt_of_eq_some (beh : Nat → Bool) :
    ∀ (fuel n j : Nat), firstSucc beh n fuel = some j → n < j := by
  intro fuel
  induction fuel with
  | zero => intro n j h; simp [firstSucc] at h
  | succ f ih =>
    intro n j h
    by_cases hb : beh (n + 1)
    · simp [firstSucc, hb] at h
      omega
    · simp only [firstSucc, hb, if_false] at h
      have := ih (n + 1) j h
      omega

lemma attemptGo_succ_ok (beh : Nat → Bool) (d nr : Nat) (name : String)
    (evts : List Event) (slps : List Nat) (fuel : Nat)
    (h1 : 1 ≤ nr) (hb : beh (nr + 1) = true) :
    attemptGo beh d nr name evts slps (fuel + 1)
      = ⟨nr + 1, slps ++ [d], true,
          (evts ++ [Event.delayEvt name d]) ++
            [Event.execEvt (name ++ " (RETRY " ++ toString (nr + 1 - 1) ++ ")") true]⟩ := by
  have hgt : nr + 1 > 1 := by omega
  simp only [attemptGo, if_pos hgt, hb, if_true]

lemma attemptGo_succ_fail (beh : Nat → Bool) (d nr : Nat) (name : String)
    (evts : List Event) (slps : List Nat) (fuel : Nat)
    (h1 : 1 ≤ nr) (hb : beh (nr + 1) = false) :
    attemptGo beh d nr name evts slps (fuel + 1)
      = attemptGo beh d (nr + 1) (name ++ " (RETRY " ++ toString (nr + 1 - 1) ++ ")")
          ((evts ++ [Event.delayEvt name d]) ++
            [Event.execEvt (name ++ " (RETRY " ++ toString (nr + 1 - 1) ++ ")") false])
          (slps ++ [d]) fuel := by
  have hgt : nr + 1 > 1 := by omega
  simp only [attemptGo, if_pos hgt, hb, Bool.false_eq_true, if_false]

lemma attemptGo_first (beh : Nat → Bool) (d : Nat) (name : String)
    (evts : List Event) (slps : List Nat) (fuel : Nat) :
    attemptGo beh d 0 name evts slps (fuel + 1)
      = (if beh 1 then ⟨1, slps, true, evts ++ [Event.execEvt name true]⟩
         else attemptGo beh d 1 name (evts ++ [Event.execEvt name false]) slps fuel) := by
  have hng : ¬ (0 + 1 > 1) := by omega
  by_cases hb : beh 1
  · simp only [attemptGo, if_neg hng, Nat.zero_add, hb, if_true]
  · simp only [attemptGo, if_neg hng, Nat.zero_add, hb, Bool.false_eq_true, if_false]

lemma attemptGo_num_ge (beh : Nat → Bool) (d : Nat) :
    ∀ (fuel nr : Nat) (name : String) (evts : List Event) (slps : List Nat),
      1 ≤ nr →
      nr ≤ (attemptGo beh d nr name evts slps fuel).num_runs := by
  intro fuel
  induction fuel with
  | zero => intro nr name evts slps _; simp [attemptGo]
  | succ f ih =>
    intro nr name evts slps h1
    by_cases hb : beh (nr + 1)
    · rw [attemptGo_succ_ok beh d nr name evts slps f h1 hb]
      show nr ≤ nr + 1
      omega
    · rw [attemptGo_succ_fail beh d nr name evts slps f h1 (by simpa using hb)]
      have h2 := ih (nr + 1)
        (name ++ " (RETRY " ++ toString (nr + 1 - 1) ++ ")")
        ((evts ++ [Event.delayEvt name d]) ++
          [Event.execEvt (name ++ " (RETRY " ++ toString (nr + 1 - 1) ++ ")") false])
        (slps ++ [d]) (by omega)
      omega

lemma attemptGo_spec (beh : Nat → Bool) (d : Nat) :
    ∀ (fuel nr : Nat) (name : String) (evts : List Event) (slps : List Nat),
      1 ≤ nr →
      (attemptGo beh d nr name evts slps fuel).num_runs
          = (firstSucc beh nr fuel).getD (nr + fuel)
      ∧ (attemptGo beh d nr name evts slps fuel).succeeded
          = (firstSucc beh nr fuel).isSome
      ∧ (attemptGo beh d nr name evts slps fuel).sleeps
          = slps ++ List.replicate ((attemptGo beh d nr name evts slps fuel).num_runs - nr) d
      ∧ (attemptGo beh d nr name evts slps fuel).events.countP isDelayEvt
          = evts.countP isDelayEvt + ((attemptGo beh d nr name evts slps fuel).num_runs - nr) := by
  intro fuel
  induction fuel with
  | zero =>
    intro nr name evts slps _
    simp [attemptGo, firstSucc]
  | succ f ih =>
    intro nr name evts slps h1
    by_cases hb : beh (nr + 1)
    · rw [attemptGo_succ_ok beh d nr name evts slps f h1 hb]
      simp only [firstSucc, hb, if_true]
      refine ⟨rfl, rfl, ?_, ?_⟩
      · have : nr + 1 - nr = 1 := by omega
        rw [this]
        simp
      · have : nr + 1 - nr = 1 := by omega
        rw [this]
        simp [List.countP_append, List.countP_cons, isDelayEvt]
    · rw [attemptGo_succ_fail beh d nr name evts slps f h1 (by simpa using hb)]
      obtain ⟨k1, k2, k3, k4⟩ := ih (nr + 1)
        (name ++ " (RETRY " ++ toString (nr + 1 - 1) ++ ")")
        ((evts ++ [Event.delayEvt name d]) ++
          [Event.execEvt (name ++ " (RETRY " ++ toString (nr + 1 - 1) ++ ")") false])
        (slps ++ [d]) (by omega)
      have hge := attemptGo_num_ge beh d f (nr + 1)
        (name ++ " (RETRY " ++ toString (nr + 1 - 1) ++ ")")
        ((evts ++ [Event.delayEvt name d]) ++
          [Event.execEvt (name ++ " (RETRY " ++ toString (nr + 1 - 1) ++ ")") false])
        (slps ++ [d]) (by omega)
      have hfs : firstSucc beh nr (f + 1) = firstSucc beh (nr + 1) f := by
        simp only [firstSucc, hb, Bool.false_eq_true, if_false]
      refine ⟨?_, ?_, ?_, ?_⟩
      · rw [k1, hfs]
        cases hcase : firstSucc beh (nr + 1) f with
        | none => simp [hcase]; omega
        | some j => simp [hcase]
      · rw [k2, hfs]
      · rw [k3, k1]
        rw [k1] at hge
        have harith : (firstSucc beh (nr + 1) f).getD (nr + 1 + f) - nr
            = ((firstSucc beh (nr + 1) f).getD (nr + 1 + f) - (nr + 1)) + 1 := by omega
        rw [harith, List.replicate_succ]
        simp
      · rw [k4, k1]
        rw [k1] at hge
        simp only [List.countP_append, List.countP_cons, List.countP_nil, isDelayEvt]
        simp [isDelayEvt]
        omega

lemma attemptLoop_spec (m : CompiledModel) :
    (attemptLoop m).num_runs = (firstSucc m.beh 0 (m.retries + 1)).getD (m.retries + 1)
    ∧ (attemptLoop m).succeeded = (firstSucc m.beh 0 (m.retries + 1)).isSome
    ∧ (attemptLoop m).sleeps
        = List.replicate ((attemptLoop m).num_runs - 1) m.retry_delay_seconds
    ∧ (attemptLoop m).events.countP isDelayEvt = (attemptLoop m).num_runs - 1 := by
  unfold attemptLoop
  rw [attemptGo_first]
  by_cases hb : m.beh 1
  · have hfs : firstSucc m.beh 0 (m.retries + 1) = some 1 := by
      simp [firstSucc, hb]
    rw [if_pos hb, hfs]
    refine ⟨rfl, rfl, rfl, by simp [isDelayEvt]⟩
  · rw [if_neg hb]
    simp only [List.nil_append]
    obtain ⟨k1, k2, k3, k4⟩ := attemptGo_spec m.beh m.retry_delay_seconds m.retries 1
      m.task_var_name [Event.execEvt m.task_var_name false] [] (by omega)
    have hfs : firstSucc m.beh 0 (m.retries + 1) = firstSucc m.beh 1 m.retries := by
      simp only [firstSucc, Nat.zero_add, hb, Bool.false_eq_true, if_false]
    refine ⟨?_, ?_, ?_, ?_⟩
    · rw [k1, hfs]
      cases hcase : firstSucc m.beh 1 m.retries with
      | none => simp [hcase]; omega
      | some j => simp [hcase]
    · rw [k2, hfs]
    · rw [k3]
      simp
    · rw [k4]
      simp [isDelayEvt]

lemma execSingleCore_outputs_isFail (m : CompiledModel) (t : PrismTaskManager) :
    isFail (execSingleCore m t).outputs = !(attemptLoop m).succeeded := by
  unfold execSingleCore
  by_cases h : (attemptLoop m).succeeded <;> simp [h, isFail]

lemma execSingleCore_event_to_fire (m : CompiledModel) (t : PrismTaskManager) :
    (execSingleCore m t).event_to_fire
      = if (attemptLoop m).succeeded then none else some (Event.errorEvt m.task_var_name) := rfl

lemma execSingleCore_event_list (m : CompiledModel) (t : PrismTaskManager) :
    (execSingleCore m t).event_list = (attemptLoop m).events := rfl

/-- Claim C3: exec_single attempts a task at most retries + 1 times; it sleeps
retry_delay_seconds before each attempt after the first, firing one retry
delay event per extra attempt; it stops at the first successful attempt
(firstSucc); a task that fails every attempt runs exactly retries + 1 times,
and a single-task sequential run over a task that fails every attempt then
returns success 0 with the error event of that task as the fatal error of
the run. -/
theorem retry_semantics_spec (m : CompiledModel) (t0 : PrismTaskManager) :
    (attemptLoop m).num_runs = (firstSucc m.beh 0 (m.retries + 1)).getD (m.retries + 1)
    ∧ (attemptLoop m).succeeded = (firstSucc m.beh 0 (m.retries + 1)).isSome
    ∧ (attemptLoop m).sleeps
        = List.replicate ((attemptLoop m).num_runs - 1) m.retry_delay_seconds
    ∧ (attemptLoop m).events.countP isDelayEvt = (attemptLoop m).num_runs - 1
    ∧ execSeq [m] t0
        = Except.ok ⟨if (attemptLoop m).succeeded then 1 else 0,
            if (attemptLoop m).succeeded then none
              else some (Event.errorEvt m.task_var_name),
            (attemptLoop m).events⟩ := by
  obtain ⟨k1, k2, k3, k4⟩ := attemptLoop_spec m
  refine ⟨k1, k2, k3, k4, ?_⟩
  by_cases hs : (attemptLoop m).succeeded
  · simp [execSeq, execSeqGo, execSingle, to_tm_arg, callbackFn, execSingleCore, isFail, hs]
  · simp [execSeq, execSeqGo, execSingle, to_tm_arg, callbackFn, execSingleCore, isFail, hs]

/-
Sequential execution.
-/

lemma execSingle_tmv (m : CompiledModel) (t : PrismTaskManager) :
    execSingle m (TMArg.tmv t) = Except.ok (execSingleCore m t) := rfl

lemma execSeqGo_cons_tmv (m : CompiledModel) (rest : List CompiledModel)
    (t : PrismTaskManager) (w : Bool) (errEv : Option Event) (evts : List Event) :
    execSeqGo (m :: rest) ⟨TMOut.tmv t, w, errEv, evts⟩
      = (if isFail (execSingleCore m t).outputs
         then Except.ok ⟨0, (callbackFn (execSingleCore m t) ⟨TMOut.tmv t, w, errEv, evts⟩).error_event,
             (callbackFn (execSingleCore m t) ⟨TMOut.tmv t, w, errEv, evts⟩).event_list⟩
         else execSeqGo rest (callbackFn (execSingleCore m t) ⟨TMOut.tmv t, w, errEv, evts⟩)) := rfl

lemma execSeqGo_spec :
    ∀ (models : List CompiledModel) (t : PrismTaskManager) (w : Bool)
      (errEv : Option Event) (evts : List Event),
      execSeqGo models ⟨TMOut.tmv t, w, errEv, evts⟩
        = Except.ok ⟨if models.all finalOk then 1 else 0,
            if models.all finalOk then errEv else firstErr models,
            evts ++ allEvents (seqExecuted models)⟩ := by
  intro models
  induction models with
  | nil =>
    intro t w errEv evts
    simp [execSeqGo, seqExecuted, allEvents]
  | cons m rest ih =>
    intro t w errEv evts
    rw [execSeqGo_cons_tmv]
    by_cases hm : finalOk m
    · have hsucc : (attemptLoop m).succeeded = true := hm
      have hisf : isFail (execSingleCore m t).outputs = false := by
        rw [execSingleCore_outputs_isFail, hsucc]
        rfl
      have hout : (execSingleCore m t).outputs
          = TMOut.tmv { curr_module := strip_py (path_name m.model_relative_path),
                        upstream := t.upstream ++ [m.task_var_name] } := by
        simp only [execSingleCore, hsucc, if_true]
      simp only [callbackFn, hout, isFail, Bool.false_eq_true, if_false]
      rw [ih]
      have hall : (m :: rest).all finalOk = rest.all finalOk := by
        simp [List.all_cons, hm]
      have hfe : firstErr (m :: rest) = firstErr rest := by
        simp [firstErr, List.find?, hm]
      have hsq : seqExecuted (m :: rest) = m :: seqExecuted rest := by
        simp [seqExecuted, hm]
      rw [hall, hfe, hsq]
      simp [allEvents, execSingleCore_event_list, singleEvents, List.append_assoc]
    · have hsucc : (attemptLoop m).succeeded = false := by
        simp [finalOk] at hm
        exact hm
      have hisf : isFail (execSingleCore m t).outputs = true := by
        rw [execSingleCore_outputs_isFail, hsucc]
        rfl
      simp only [hisf, eq_self_iff_true, if_true, callbackFn]
      have hall : (m :: rest).all finalOk = false := by
        simp [List.all_cons, hm]
      have hfe : firstErr (m :: rest) = some (Event.errorEvt m.task_var_name) := by
        simp [firstErr, List.find?, hm]
      have hsq : seqExecuted (m :: rest) = [m] := by
        simp [seqExecuted, hm]
      have hfire : (execSingleCore m t).event_to_fire = some (Event.errorEvt m.task_var_name) := by
        rw [execSingleCore_event_to_fire, hsucc]
        rfl
      rw [hall, hfe, hsq]
      simp [hfire, allEvents, execSingleCore_event_list, singleEvents]

/-- Claim C2: with threads equal to 1, exec pops the compiled models strictly
in order, runs each one to completion (all of its retries, its full event
list) before the next one starts, and stops at the first task whose final
result is a failure: the run executes exactly the models of seqExecuted (the
prefix up to and including the first failing task), returns success 0 with
the error event of the first failing task when there is a failure, and success 1
otherwise. -/
theorem seq_exec_stops_at_first_failure (models : List CompiledModel) (t0 : PrismTaskManager) :
    execSeq models t0
      = Except.ok ⟨if models.all finalOk then 1 else 0,
          firstErr models,
          allEvents (seqExecuted models)⟩ := by
  unfold execSeq
  rw [execSeqGo_spec]
  by_cases hall : models.all finalOk
  · have hfe : firstErr models = none := by
      unfold firstErr
      have : models.find? (fun m => !finalOk m) = none := by
        rw [List.find?_eq_none]
        intro x hx
        simp [(List.all_eq_true.mp hall) x hx]
      simp [this]
    simp [hall, hfe]
  · simp [hall]

/-
The attempt loop always fires at least one event (its first attempt).
-/

lemma attemptGo_events_le (beh : Nat → Bool) (d : Nat) :
    ∀ (fuel nr : Nat) (name : String) (evts : List Event) (slps : List Nat),
      evts.length ≤ (attemptGo beh d nr name evts slps fuel).events.length := by
  intro fuel
  induction fuel with
  | zero => intro nr name evts slps; simp [attemptGo]
  | succ f ih =>
    intro nr name evts slps
    rcases Nat.eq_zero_or_pos nr with h0 | h1
    · subst h0
      rw [attemptGo_first]
      by_cases hb : beh 1
      · rw [if_pos hb]
        simp
      · rw [if_neg hb]
        refine le_trans ?_ (ih 1 _ _ _)
        simp
    · by_cases hb : beh (nr + 1)
      · rw [attemptGo_succ_ok beh d nr name evts slps f h1 hb]
        simp
      · rw [attemptGo_succ_fail beh d nr name evts slps f h1 (by simpa using hb)]
        refine le_trans ?_ (ih (nr + 1) _ _ _)
        simp

lemma attemptLoop_events_ne_nil (m : CompiledModel) :
    (attemptLoop m).events ≠ [] := by
  have hlen : 0 < (attemptLoop m).events.length := by
    unfold attemptLoop
    rw [attemptGo_first]
    by_cases hb : m.beh 1
    · rw [if_pos hb]
      simp
    · rw [if_neg hb]
      have h2 := attemptGo_events_le m.beh m.retry_delay_seconds m.retries 1
        m.task_var_name ([] ++ [Event.execEvt m.task_var_name false]) []
      calc 0 < ([] ++ [Event.execEvt m.task_var_name false]).length := by simp
        _ ≤ _ := h2
  intro hnil
  rw [hnil] at hlen
  simp at hlen

/-- Claim C10: the task_manager == 0 guard of exec_single never produces the
return value.  On an int argument the preceding attribute assignment raises
AttributeError; on a PrismTaskManager argument exec_single proceeds to the
attempt loop (its event list is the event list of the loop) and its result is
never the EventManagerOutput(0, None, []) constructed and discarded under
the guard. -/
theorem exec_single_guard_never_returns (m : CompiledModel) (n : Nat) (t : PrismTaskManager) :
    execSingle m (TMArg.intVal n) = Except.error PyErr.attributeError
    ∧ execSingle m (TMArg.tmv t) = Except.ok (execSingleCore m t)
    ∧ (execSingleCore m t).event_list = (attemptLoop m).events
    ∧ execSingle m (TMArg.tmv t) ≠ Except.ok guarded_output := by
  refine ⟨rfl, rfl, rfl, ?_⟩
  intro h
  rw [execSingle_tmv] at h
  have hcore : execSingleCore m t = guarded_output := by
    injection h
  have hev : (execSingleCore m t).event_list = [] := by
    rw [hcore]
    rfl
  rw [execSingleCore_event_list] at hev
  exact attemptLoop_events_ne_nil m hev

/-- Claim C9, amended: a refs value that is neither a str nor a list makes
check_task_refs raise CompileException, and in pooled mode such a task can
never be submitted (the raise happens when it reaches the head of the
submission queue); but in sequential mode check_task_refs is never invoked,
so the run executes normally instead of surfacing the error before any task
runs. -/
theorem invalid_refs_raise_only_in_pool (m : CompiledModel) (models : List CompiledModel)
    (t0 : PrismTaskManager) (s : PoolState) (h : m.refs = RefsVal.vother) :
    check_task_refs m.refs = Except.error PyErr.compileException
    ∧ canSubmit m s = false
    ∧ execSeq (m :: models) t0
        = Except.ok ⟨if (m :: models).all finalOk then 1 else 0,
            if (m :: models).all finalOk then none else firstErr (m :: models),
            allEvents (seqExecuted (m :: models))⟩ := by
  refine ⟨by rw [h]; rfl, ?_, ?_⟩
  · simp [canSubmit, h, check_task_refs]
  · unfold execSeq
    rw [execSeqGo_spec]
    simp

def wTM : PrismTaskManager := ⟨"", []⟩

def c9bad : CompiledModel := ⟨"bad.py", "bad", RefsVal.vother, 0, 0, fun _ => true⟩

/-- Claim C9, counterexample: a sequential (threads == 1) run over a single
task whose refs value is neither a str nor a list raises nothing and executes
the task: exec returns success 1 with the exec event of the task, so the invalid
dependency value is not surfaced before any task runs. -/
theorem invalid_refs_seq_runs_task :
    c9bad.refs = RefsVal.vother
    ∧ execSeq [c9bad] wTM = Except.ok ⟨1, none, [Event.execEvt "bad" true]⟩ := by
  refine ⟨rfl, ?_⟩
  rfl

/-- Claim C9 witness. -/
theorem invalid_refs_raise_only_in_pool_witness :
    check_task_refs c9bad.refs = Except.error PyErr.compileException
    ∧ canSubmit c9bad (initPool [c9bad]) = false :=
  ⟨(invalid_refs_raise_only_in_pool c9bad [] wTM (initPool [c9bad]) rfl).1,
   (invalid_refs_raise_only_in_pool c9bad [] wTM (initPool [c9bad]) rfl).2.1⟩

/-- Claim C8, counterexample: a module manifest declaring exactly one ref
stores the bare source string, not a one element list, in the refs field of
the compiled module. -/
theorem single_ref_not_stored_as_list :
    check_manifest [RefObj.mk "a"] = RefsVal.vstr "a"
    ∧ isVlist (check_manifest [RefObj.mk "a"]) = false :=
  ⟨rfl, rfl⟩

/-- Claim C8, amended: _check_manifest stores zero or several refs as a list
but exactly one ref as the bare string, and the executor special-cases the
string shape downstream: check_task_refs re-wraps it, so the composition
always yields the full list of declared ref sources. -/
theorem refs_shape_normalized_downstream (l : List RefObj) :
    check_manifest l
      = (if l.length = 1 then RefsVal.vstr (l.map RefObj.source).headI
         else RefsVal.vlist (l.map RefObj.source))
    ∧ check_task_refs (check_manifest l) = Except.ok (l.map RefObj.source) := by
  match l with
  | [] => exact ⟨rfl, rfl⟩
  | [x] => exact ⟨rfl, rfl⟩
  | x :: y :: rest =>
    have hne : ((x :: y :: rest).map RefObj.source).length ≠ 1 := by
      simp
    have hne2 : (x :: y :: rest).length ≠ 1 := by
      simp
    constructor
    · unfold check_manifest
      rw [if_neg hne, if_neg hne2]
    · unfold check_manifest
      rw [if_neg hne]
      rfl

/-- Claim C6: the explicit_run argument passed to the task execution contract
is computed by testing the Path valued model_relative_path for membership in
nodes_not_explicitly_run, a list of task name strings; Python equality
between a Path and a str is always False, so the membership test is always
False and explicit_run is always True, for every model and every selection,
including models that run only as pulled-in transitive dependencies. -/
theorem explicit_run_always_true (m : CompiledModel) (topo user : List String) (up down : Bool) :
    explicit_run_arg m (nodes_not_explicitly_run topo user up down) = true := by
  have key : ∀ (nodes : List String) (p : String),
      pyIn (PyObj.ppath p) (nodes.map PyObj.pstr) = false := by
    intro nodes p
    induction nodes with
    | nil => rfl
    | cons a l ih =>
      simp only [List.map_cons, pyIn, List.any_cons] at ih ⊢
      rw [ih]
      rfl
  unfold explicit_run_arg
  rw [key]
  rfl

/-
Pooled execution invariants.
-/

lemma reach_flag_false_done_ok (t0 : PrismTaskManager) (models : List CompiledModel)
    (s : PoolState) (h : Reach t0 models s) :
    s.wait_and_return = false → ∀ p ∈ s.done, p.2 = true := by
  induction h with
  | init =>
    intro _ p hp
    simp [initPool] at hp
  | step s1 s2 hr hstep ih =>
    intro hflag p hp
    cases hstep with
    | submit m rest hq hc =>
      exact ih hflag p hp
    | complete l1 l2 m hin =>
      by_cases hf : isFail (emOut t0 m).outputs
      · exfalso
        simp [applyCallback, hf] at hflag
      · have hf0 : isFail (emOut t0 m).outputs = false := by
          cases hx : isFail (emOut t0 m).outputs
          · rfl
          · exact absurd hx hf
        simp only [applyCallback, hf0, Bool.false_eq_true, if_false] at hflag hp
        rcases List.mem_append.mp hp with hmem | hmem
        · exact ih hflag p hmem
        · rw [List.mem_singleton.mp hmem]
          rfl

/-- Claim C1: in pooled mode a task never begins execution before every one
of its declared refs has completed successfully.  Whenever the submission
loop is about to submit the model m at the head of the queue (guard
canSubmit: flag unset after waiting on the async result of every ref), every ref
of m appears in the completed results with a successful outcome. -/
theorem pooled_submit_requires_refs_ok (t0 : PrismTaskManager) (models : List CompiledModel)
    (s : PoolState) (m : CompiledModel) (rest : List CompiledModel)
    (h : Reach t0 models s) (hq : s.queue = m :: rest) (hc : canSubmit m s = true) :
    refsAllOk m s = true := by
  unfold canSubmit at hc
  rw [Bool.and_eq_true] at hc
  obtain ⟨hflag, hrefs⟩ := hc
  have hflagf : s.wait_and_return = false := by
    cases hw : s.wait_and_return
    · rfl
    · rw [hw] at hflag
      simp at hflag
  have hdone := reach_flag_false_done_ok t0 models s h hflagf
  unfold refsAllOk
  cases hct : check_task_refs m.refs with
  | error e =>
    rw [hct] at hrefs
    simp at hrefs
  | ok refs =>
    rw [hct] at hrefs
    simp only [List.all_eq_true] at hrefs ⊢
    intro r hr
    have hone := hrefs r hr
    unfold refDoneB at hone
    rw [List.any_eq_true] at hone
    obtain ⟨p, hpmem, hpname⟩ := hone
    rw [List.any_eq_true]
    refine ⟨p, hpmem, ?_⟩
    rw [Bool.and_eq_true]
    exact ⟨hpname, hdone p hpmem⟩

/-- Claim C4: once the failure flag is set, the only possible transition of a
pooled run is the completion of an already submitted task: the queue does not
shrink (no new submission reaches the pool), one in-flight task leaves the
pool, and it leaves by delivering its full result (all retries, full event
list) to the callback. -/
theorem pooled_flag_stops_submissions (t0 : PrismTaskManager) (models : List CompiledModel)
    (s s' : PoolState) (h : Reach t0 models s) (hstep : PoolStep t0 s s')
    (hflag : s.wait_and_return = true) :
    s'.queue = s.queue
    ∧ s'.inflight.length + 1 = s.inflight.length
    ∧ ∃ mm, mm ∈ s.inflight
        ∧ s'.done = s.done ++ [(mm, !isFail (emOut t0 mm).outputs)]
        ∧ s'.event_list = s.event_list ++ (emOut t0 mm).event_list := by
  cases hstep with
  | submit m rest hq hc =>
    exfalso
    unfold canSubmit at hc
    rw [hflag] at hc
    simp at hc
  | complete l1 l2 m hin =>
    refine ⟨rfl, ?_, m, ?_, rfl, rfl⟩
    · simp [applyCallback, hin]
      omega
    · rw [hin]
      simp

/-
Lemmas for the recorded error event.
-/

lemma emOut_fail_event (t0 : PrismTaskManager) (m : CompiledModel)
    (hf : isFail (emOut t0 m).outputs = true) :
    (emOut t0 m).event_to_fire = some (Event.errorEvt m.task_var_name) := by
  unfold emOut at hf ⊢
  rw [execSingleCore_outputs_isFail] at hf
  rw [execSingleCore_event_to_fire]
  simp at hf
  simp [hf]

lemma lastFailureErr_append_true (done : List (CompiledModel × Bool)) (m : CompiledModel) :
    lastFailureErr (done ++ [(m, true)]) = lastFailureErr done := by
  simp [lastFailureErr, List.filter_append]

lemma lastFailureErr_append_false (done : List (CompiledModel × Bool)) (m : CompiledModel) :
    lastFailureErr (done ++ [(m, false)]) = some (Event.errorEvt m.task_var_name) := by
  unfold lastFailureErr
  rw [List.filter_append]
  have : List.filter (fun p => !p.2) [(m, false)] = [(m, false)] := rfl
  rw [this, List.getLast?_concat]
  rfl

lemma doneEvents_append (t0 : PrismTaskManager) (l1 l2 : List (CompiledModel × Bool)) :
    doneEvents t0 (l1 ++ l2) = doneEvents t0 l1 ++ doneEvents t0 l2 := by
  induction l1 with
  | nil => simp [doneEvents]
  | cons p rest ih => simp [doneEvents, ih]

/-- Claim C5, amended: in every reachable pooled state, the recorded
error_event is the error of the most recent failing completion callback
(later failures overwrite earlier ones), the event list is the concatenation
of the events of every completed task in callback delivery order, and every
completion outcome is recorded faithfully. -/
theorem pooled_error_event_is_last_failure (t0 : PrismTaskManager)
    (models : List CompiledModel) (s : PoolState) (h : Reach t0 models s) :
    s.error_event = lastFailureErr s.done
    ∧ s.event_list = doneEvents t0 s.done
    ∧ ∀ p ∈ s.done, p.2 = !isFail (emOut t0 p.1).outputs := by
  induction h with
  | init =>
    refine ⟨rfl, rfl, ?_⟩
    intro p hp
    simp [initPool] at hp
  | step s1 s2 hr hstep ih =>
    obtain ⟨ih1, ih2, ih3⟩ := ih
    cases hstep with
    | submit m rest hq hc =>
      exact ⟨ih1, ih2, ih3⟩
    | complete l1 l2 m hin =>
      have hdone : (applyCallback (emOut t0 m) m { s1 with inflight := l1 ++ l2 }).done
          = s1.done ++ [(m, !isFail (emOut t0 m).outputs)] := rfl
      have herr : (applyCallback (emOut t0 m) m { s1 with inflight := l1 ++ l2 }).error_event
          = (if isFail (emOut t0 m).outputs then (emOut t0 m).event_to_fire
             else s1.error_event) := rfl
      have hev : (applyCallback (emOut t0 m) m { s1 with inflight := l1 ++ l2 }).event_list
          = s1.event_list ++ (emOut t0 m).event_list := rfl
      refine ⟨?_, ?_, ?_⟩
      · rw [herr, hdone]
        by_cases hf : isFail (emOut t0 m).outputs
        · have hf' : (!isFail (emOut t0 m).outputs) = false := by rw [hf]; rfl
          rw [if_pos hf, emOut_fail_event t0 m hf, hf', lastFailureErr_append_false]
        · have hf0 : isFail (emOut t0 m).outputs = false := by
            cases hx : isFail (emOut t0 m).outputs
            · rfl
            · exact absurd hx hf
          have hf' : (!isFail (emOut t0 m).outputs) = true := by rw [hf0]; rfl
          rw [if_neg hf, hf', lastFailureErr_append_true]
          exact ih1
      · rw [hev, hdone, doneEvents_append, ih2]
        simp [doneEvents]
      · intro p hp
        rw [hdone] at hp
        rcases List.mem_append.mp hp with hmem | hmem
        · exact ih3 p hmem
        · rw [List.mem_singleton.mp hmem]

/-
Concrete pooled traces used by the witnesses and the C5 counterexample.
-/

/-- Trace for C1: w1 always succeeds, w2 declares w1 as its only ref. -/
def w1 : CompiledModel := ⟨"t1.py", "t1", RefsVal.vlist [], 0, 0, fun _ => true⟩

def w2 : CompiledModel := ⟨"t2.py", "t2", RefsVal.vstr "t1", 0, 0, fun _ => true⟩

def c1s1 : PoolState :=
  { initPool [w1, w2] with queue := [w2], inflight := (initPool [w1, w2]).inflight ++ [w1] }

def c1s2 : PoolState :=
  applyCallback (emOut wTM w1) w1 { c1s1 with inflight := ([] : List CompiledModel) ++ [] }

lemma c1_reach : Reach wTM [w1, w2] c1s2 := by
  have h0 : Reach wTM [w1, w2] (initPool [w1, w2]) := Reach.init
  have h1 : Reach wTM [w1, w2] c1s1 :=
    Reach.step _ _ h0 (PoolStep.submit (initPool [w1, w2]) w1 [w2] rfl (by decide))
  exact Reach.step _ _ h1 (PoolStep.complete c1s1 [] [] w1 rfl)

/-- Claim C1 witness: after w1 was submitted and completed successfully, the
submission guard for w2 holds and every ref of w2 has completed with a
successful outcome. -/
theorem pooled_submit_requires_refs_ok_witness : refsAllOk w2 c1s2 = true :=
  pooled_submit_requires_refs_ok wTM [w1, w2] c1s2 w2 [] c1_reach rfl (by decide)

/-- Trace for C4: f1 and f2 both fail permanently. -/
def f1 : CompiledModel := ⟨"f1.py", "f1", RefsVal.vlist [], 0, 0, fun _ => false⟩

def f2 : CompiledModel := ⟨"f2.py", "f2", RefsVal.vlist [], 0, 0, fun _ => false⟩

def c4s1 : PoolState :=
  { initPool [f1, f2] with queue := [f2], inflight := (initPool [f1, f2]).inflight ++ [f1] }

def c4s2 : PoolState :=
  { c4s1 with queue := ([] : List CompiledModel), inflight := c4s1.inflight ++ [f2] }

def c4s3 : PoolState :=
  applyCallback (emOut wTM f1) f1 { c4s2 with inflight := ([] : List CompiledModel) ++ [f2] }

def c4s4 : PoolState :=
  applyCallback (emOut wTM f2) f2 { c4s3 with inflight := ([] : List CompiledModel) ++ [] }

lemma c4_reach : Reach wTM [f1, f2] c4s3 := by
  have h0 : Reach wTM [f1, f2] (initPool [f1, f2]) := Reach.init
  have h1 : Reach wTM [f1, f2] c4s1 :=
    Reach.step _ _ h0 (PoolStep.submit (initPool [f1, f2]) f1 [f2] rfl (by decide))
  have h2 : Reach wTM [f1, f2] c4s2 :=
    Reach.step _ _ h1 (PoolStep.submit c4s1 f2 [] rfl (by decide))
  exact Reach.step _ _ h2 (PoolStep.complete c4s2 [] [f2] f1 rfl)

/-- Claim C4 witness: in the state after the failing callback of f1 set the flag,
the completion of the in-flight f2 leaves the queue untouched and removes
exactly one in-flight task. -/
theorem pooled_flag_stops_submissions_witness :
    c4s4.queue = c4s3.queue ∧ c4s4.inflight.length + 1 = c4s3.inflight.length :=
  ⟨(pooled_flag_stops_submissions wTM [f1, f2] c4s3 c4s4 c4_reach
      (PoolStep.complete c4s3 [] [] f2 rfl) rfl).1,
   (pooled_flag_stops_submissions wTM [f1, f2] c4s3 c4s4 c4_reach
      (PoolStep.complete c4s3 [] [] f2 rfl) rfl).2.1⟩

/-- Trace for C5: cA and cB both fail permanently; the failing callback of cA
is delivered first, the one of cB second. -/
def cA : CompiledModel := ⟨"a.py", "a", RefsVal.vlist [], 0, 0, fun _ => false⟩

def cB : CompiledModel := ⟨"b.py", "b", RefsVal.vlist [], 0, 0, fun _ => false⟩

def c5s1 : PoolState :=
  { initPool [cA, cB] with queue := [cB], inflight := (initPool [cA, cB]).inflight ++ [cA] }

def c5s2 : PoolState :=
  { c5s1 with queue := ([] : List CompiledModel), inflight := c5s1.inflight ++ [cB] }

def c5s3 : PoolState :=
  applyCallback (emOut wTM cA) cA { c5s2 with inflight := ([] : List CompiledModel) ++ [cB] }

def c5s4 : PoolState :=
  applyCallback (emOut wTM cB) cB { c5s3 with inflight := ([] : List CompiledModel) ++ [] }

lemma c5_reach : Reach wTM [cA, cB] c5s4 := by
  have h0 : Reach wTM [cA, cB] (initPool [cA, cB]) := Reach.init
  have h1 : Reach wTM [cA, cB] c5s1 :=
    Reach.step _ _ h0 (PoolStep.submit (initPool [cA, cB]) cA [cB] rfl (by decide))
  have h2 : Reach wTM [cA, cB] c5s2 :=
    Reach.step _ _ h1 (PoolStep.submit c5s1 cB [] rfl (by decide))
  have h3 : Reach wTM [cA, cB] c5s3 :=
    Reach.step _ _ h2 (PoolStep.complete c5s2 [] [cB] cA rfl)
  exact Reach.step _ _ h3 (PoolStep.complete c5s3 [] [] cB rfl)

/-- Claim C5, counterexample: a pooled run in which two tasks fail.  The
failing callback of cA is delivered first, then the one of cB; the returned
ExecutorOutput carries the error event of cB — the error of the last failing
callback — not the first fatal error, which came from cA. -/
theorem pooled_error_event_not_first_failure :
    Reach wTM [cA, cB] c5s4
    ∧ canReturn c5s4
    ∧ (poolOutput c5s4).error_event = some (Event.errorEvt "b")
    ∧ firstFailureErr c5s4.done = some (Event.errorEvt "a")
    ∧ some (Event.errorEvt "b") ≠ some (Event.errorEvt "a") := by
  refine ⟨c5_reach, ⟨rfl, Or.inl rfl⟩, ?_, ?_, by decide⟩
  · decide
  · decide

/-- Claim C5 witness for the amended statement, at the end of the concrete
two-failure trace. -/
theorem pooled_error_event_is_last_failure_witness :
    c5s4.error_event = lastFailureErr c5s4.done
    ∧ c5s4.event_list = doneEvents wTM c5s4.done :=
  ⟨(pooled_error_event_is_last_failure wTM [cA, cB] c5s4 c5_reach).1,
   (pooled_error_event_is_last_failure wTM [cA, cB] c5s4 c5_reach).2.1⟩

/-
Progress accounting (claim C7).
-/

lemma zip_indexOf_map (topo user : List String) :
    (user.map (fun mm => topo.indexOf mm)).zip user
      = user.map (fun mm => (topo.indexOf mm, mm)) := by
  have h := List.zip_map' (fun mm => topo.indexOf mm) (fun mm => mm) user
  simpa using h

/-- Claim C7: the progress pair (idx, total) of exec_single is: with upstream
or downstream expansion, the 1-based position of the task in the global
topological order out of the graph size; otherwise, for a user named task,
its 1-based position in a list that is a permutation of the user named tasks
sorted by topological position, out of the size of that subset; otherwise no
position is reported.  The membership and no-duplicates hypotheses reflect
that Python list.index raises on a missing element and that positions of the
user named models are distinct. -/
theorem progress_idx_total_spec (topo user : List String) (up down : Bool)
    (model_name : String) (hnd : user.Nodup) (hsub : ∀ mm ∈ user, mm ∈ topo) :
    ((up || down) = true →
        compute_idx_total topo user up down model_name
          = (some (topo.indexOf model_name + 1), some topo.length))
    ∧ ((up || down) = false → model_name ∈ user →
        ∃ sortedUser : List String,
          sortedUser.Perm user
          ∧ sortedUser.Pairwise (fun a b => topo.indexOf a ≤ topo.indexOf b)
          ∧ sortedUser.length = user.length
          ∧ compute_idx_total topo user up down model_name
              = (some (sortedUser.indexOf model_name + 1), some sortedUser.length))
    ∧ ((up || down) = false → model_name ∉ user →
        compute_idx_total topo user up down model_name = (none, none)) := by
  refine ⟨?_, ?_, ?_⟩
  · intro hflags
    unfold compute_idx_total
    rw [hflags]
    rfl
  · intro hflags hmem
    refine ⟨(List.insertionSort pairRel
        ((user.map (fun mm => topo.indexOf mm)).zip user)).map Prod.snd, ?_, ?_, ?_, ?_⟩
    · have hperm : (List.insertionSort pairRel
          ((user.map (fun mm => topo.indexOf mm)).zip user)).Perm
          ((user.map (fun mm => topo.indexOf mm)).zip user) :=
        List.perm_insertionSort pairRel _
      have hperm2 := hperm.map Prod.snd
      have hzip : ((user.map (fun mm => topo.indexOf mm)).zip user).map Prod.snd = user := by
        rw [zip_indexOf_map]
        have hc : (Prod.snd ∘ fun mm : String => (topo.indexOf mm, mm))
            = fun mm : String => mm := rfl
        rw [List.map_map, hc, List.map_id']
      rw [hzip] at hperm2
      exact hperm2
    · have hsorted : List.Sorted pairRel (List.insertionSort pairRel
          ((user.map (fun mm => topo.indexOf mm)).zip user)) :=
        List.sorted_insertionSort pairRel _
      have hshape : ∀ p ∈ List.insertionSort pairRel
          ((user.map (fun mm => topo.indexOf mm)).zip user),
          p.1 = topo.indexOf p.2 := by
        intro p hp
        have hp2 : p ∈ (user.map (fun mm => topo.indexOf mm)).zip user :=
          (List.perm_insertionSort pairRel _).mem_iff.mp hp
        rw [zip_indexOf_map] at hp2
        obtain ⟨mm, _, hmm⟩ := List.mem_map.mp hp2
        rw [← hmm]
      rw [List.pairwise_map]
      refine hsorted.imp_of_mem ?_
      intro p q hp hq hrel
      have h1 : p.1 ≤ q.1 := by
        rcases hrel with h | ⟨h, _⟩
        · exact Nat.le_of_lt h
        · exact Nat.le_of_eq h
      rw [← hshape p hp, ← hshape q hq]
      exact h1
    · have hperm : (List.insertionSort pairRel
          ((user.map (fun mm => topo.indexOf mm)).zip user)).Perm
          ((user.map (fun mm => topo.indexOf mm)).zip user) :=
        List.perm_insertionSort pairRel _
      rw [List.length_map, hperm.length_eq, List.length_zip, List.length_map,
        Nat.min_self]
    · unfold compute_idx_total
      rw [hflags]
      simp only [Bool.false_eq_true, if_false]
      rw [if_pos hmem]
  · intro hflags hmem
    unfold compute_idx_total
    rw [hflags]
    simp only [Bool.false_eq_true, if_false]
    rw [if_neg hmem]

/-- Claim C7 witness: a concrete three-task graph with two user named tasks,
in expansion mode. -/
theorem progress_idx_total_spec_witness :
    compute_idx_total ["a", "b", "c"] ["c", "a"] true false "b"
      = (some ((["a", "b", "c"] : List String).indexOf "b" + 1),
         some (["a", "b", "c"] : List String).length) :=
  (progress_idx_total_spec ["a", "b", "c"] ["c", "a"] true false "b"
    (by decide) (by decide)).1 rfl

end Prism
